import Mathlib

/-!
# Verification of the postcall extraction-trace sanitizer

A shallow embedding of `sanitizeExtractionTrace` and its helpers from
`postcall_trace.py`. Input payloads are JSON-like Python values (dicts with
string keys, lists, strings, ints, bools, `None`); the embedding models the
Python behaviours the code relies on: truthiness, `or`-chains, `isinstance`
checks (where `bool` counts as `int`), `min`/`max` returning one of their
operands, and exceptions as an `Except` error path.
-/

namespace PostcallTrace

/-- JSON-like Python values as they occur in trace payloads. Floats and
non-string dict keys do not occur in the payloads this module handles and
are out of scope of the embedding. -/
inductive PyVal where
  | vStr : String → PyVal
  | vInt : Int → PyVal
  | vBool : Bool → PyVal
  | vNone : PyVal
  | vList : List PyVal → PyVal
  | vDict : List (String × PyVal) → PyVal

/-- Python exceptions, by class, as far as the sanitizer can raise them. -/
inductive PyErr where
  | attributeError : PyErr
  | typeError : PyErr
  | valueError : PyErr
deriving DecidableEq, Repr

/-- Python truthiness (`bool(x)`): empty/zero/`None`/empty containers are falsy. -/
def pyTruthy : PyVal → Bool
  | .vStr s => !s.isEmpty
  | .vInt n => n != 0
  | .vBool b => b
  | .vNone => false
  | .vList xs => !xs.isEmpty
  | .vDict d => !d.isEmpty

/-- Python `a or b`: returns `a` when truthy, else `b`. -/
def pyOr (a b : PyVal) : PyVal := if pyTruthy a then a else b

mutual

/-- Python `repr` on JSON-like values. String escaping inside `repr` is
approximated by plain single quotes; the sanitizer only ever applies `str`
(hence `repr` of members) for substring matching and previews. -/
def pyRepr : PyVal → String
  | .vStr s => "'" ++ s ++ "'"
  | .vInt n => toString n
  | .vBool true => "True"
  | .vBool false => "False"
  | .vNone => "None"
  | .vList xs => "[" ++ ", ".intercalate (pyReprList xs) ++ "]"
  | .vDict d => "\x7b" ++ ", ".intercalate (pyReprDict d) ++ "\x7d"

/-- `repr` of each member of a list. -/
def pyReprList : List PyVal → List String
  | [] => []
  | x :: xs => pyRepr x :: pyReprList xs

/-- `repr` of each `key: value` entry of a dict. -/
def pyReprDict : List (String × PyVal) → List String
  | [] => []
  | (k, v) :: rest => ("'" ++ k ++ "': " ++ pyRepr v) :: pyReprDict rest

end

/-- Python `str(x)`: identity on strings, `repr`-like rendering otherwise. -/
def pyStr : PyVal → String
  | .vStr s => s
  | v => pyRepr v

/-- `d.get(k)` on a Python dict: first binding wins, missing key gives `None`. -/
def dictGet : List (String × PyVal) → String → PyVal
  | [], _ => .vNone
  | (k', v) :: rest, k => if k' == k then v else dictGet rest k

/-- `d[k] = v` on a Python dict: update in place if present, else append. -/
def setKey : List (String × PyVal) → String → PyVal → List (String × PyVal)
  | [], k, v => [(k, v)]
  | (k', v') :: rest, k, v =>
      if k' == k then (k, v) :: rest else (k', v') :: setKey rest k v

/-- Whether a key is bound in a dict. -/
def hasKey : List (String × PyVal) → String → Bool
  | [], _ => false
  | (k', _) :: rest, k => k' == k || hasKey rest k

/-- `isinstance(x, int)` result together with the numeric value: Python
`bool` is a subclass of `int`, so `True`/`False` count as `1`/`0`. -/
def asIntLike : PyVal → Option Int
  | .vInt n => some n
  | .vBool b => some (if b then 1 else 0)
  | _ => none

/-- `isinstance(x, int)` (including `bool`). -/
def isIntLike (v : PyVal) : Bool := (asIntLike v).isSome

/-- Numeric value of an int-like Python value (`0` off the int-like domain). -/
def intLikeVal (v : PyVal) : Int := (asIntLike v).getD 0

/-- Python `min(a, b)` on int-like values: returns the first operand on ties. -/
def pyMin (a b : PyVal) : PyVal := if intLikeVal a ≤ intLikeVal b then a else b

/-- Python `max(a, b)` on int-like values: returns the first operand on ties. -/
def pyMax (a b : PyVal) : PyVal := if intLikeVal a ≥ intLikeVal b then a else b

/-- `s` occurs at the start of `t` (character lists). -/
def charsLeading : List Char → List Char → Bool
  | [], _ => true
  | _ :: _, [] => false
  | a :: as, b :: bs => a == b && charsLeading as bs

/-- `s` occurs contiguously somewhere in `t` (character lists). -/
def charsWithin (s : List Char) : List Char → Bool
  | [] => s.isEmpty
  | b :: bs => charsLeading s (b :: bs) || charsWithin s bs

/-- Python `s in t` on strings: exact, case-sensitive substring containment
(the empty string is contained in everything). -/
def strContains (t s : String) : Bool := charsWithin s.data t.data

/-- Iteration (`for x in v`): lists yield members, strings yield one-character
strings, dicts yield their keys, scalars raise `TypeError`. -/
def pyIter : PyVal → Except PyErr (List PyVal)
  | .vList xs => .ok xs
  | .vStr s => .ok (s.data.map fun c => .vStr (String.mk [c]))
  | .vDict d => .ok (d.map fun p => .vStr p.1)
  | _ => .error .typeError

/-- `dict(x)`: copies a dict; scalars raise `TypeError` and string/list
arguments raise for the shapes occurring in JSON payloads (`ValueError` for
elements that are not key/value pairs). Sequence-of-pairs initialisation is
not producible from the payload shapes this module handles and is modelled
as the error path. -/
def pyToDict : PyVal → Except PyErr (List (String × PyVal))
  | .vDict d => .ok d
  | .vStr _ => .error .valueError
  | .vList _ => .error .valueError
  | _ => .error .typeError

/-- Python `str.split()` whitespace (ASCII; the payloads hold ASCII text). -/
def pyWhitespace (c : Char) : Bool :=
  c == ' ' || c == '\t' || c == '\n' || c == '\x0d' || c == '\x0b' || c == '\x0c'

/-- `s.split()` with no argument: the maximal whitespace-free words of `s`,
in order, with no empty words. `acc` holds the reversed characters of the
word currently being read. -/
def pySplitWords : List Char → List Char → List String
  | [], acc => if acc.isEmpty then [] else [String.mk acc.reverse]
  | c :: cs, acc =>
      if pyWhitespace c then
        if acc.isEmpty then pySplitWords cs []
        else String.mk acc.reverse :: pySplitWords cs []
      else pySplitWords cs (c :: acc)

/-- `" ".join(words)`. -/
def joinSpace : List String → String
  | [] => ""
  | [w] => w
  | w :: ws => w ++ " " ++ joinSpace ws

/-- `" ".join(s.split())`: collapse whitespace runs to single spaces and trim. -/
def squish (s : String) : String :=
  joinSpace (pySplitWords s.data [])

/-- `_redact_preview(text, limit=120)`: falsy input yields `""`; otherwise the
whitespace-collapsed `str(text)` is returned as is when within the limit, else
truncated to `limit - 3` characters with `"..."` appended. -/
def redact_preview (text : PyVal) : String :=
  if pyTruthy text = false then ""
  else
    let squished := squish (pyStr text)
    if squished.length ≤ 120 then squished
    else String.mk (squished.data.take 117) ++ "..."

/-- `_extract_turn_text(turn)`: strings pass through; dicts yield the first
string value among `text`, `content`, `turnText`, `message`; anything else
normalises to `""`. -/
def extract_turn_text (turn : PyVal) : String :=
  match turn with
  | .vStr s => s
  | .vDict d => firstStrKey d ["text", "content", "turnText", "message"]
  | _ => ""
where
  /-- First key among `keys` bound to a string in `d`, else `""`. -/
  firstStrKey (d : List (String × PyVal)) : List String → String
    | [] => ""
    | k :: ks =>
        match dictGet d k with
        | .vStr s => s
        | _ => firstStrKey d ks

/-- `_extract_turns(trace)` over a fixed priority list of keys: the first key
bound to a list wins (even an empty one); non-list bindings are skipped. -/
def extract_turns_from (d : List (String × PyVal)) : List String → List String
  | [] => []
  | k :: ks =>
      match dictGet d k with
      | .vList ts => ts.map extract_turn_text
      | _ => extract_turns_from d ks

/-- `_extract_turns(trace)`. -/
def extract_turns (d : List (String × PyVal)) : List String :=
  extract_turns_from d ["turns", "conversation", "conversationTurns", "turnTexts"]

/-- `extraction_trace.get("perField") or extraction_trace.get("fields") or []`. -/
def perFieldRaw (d : List (String × PyVal)) : PyVal :=
  pyOr (dictGet d "perField") (pyOr (dictGet d "fields") (.vList []))

/-- `turns[turn_index] if isinstance(turn_index, int) and 0 <= turn_index <
len(turns) else None`. -/
def validTurnText (turns : List String) (turn_index : PyVal) : Option String :=
  match asIntLike turn_index with
  | some i =>
      if 0 ≤ i ∧ i < (turns.length : Int) then some (turns.getD i.toNat "") else none
  | none => none

/-- `field.get("requestedSnippet") or field.get("snippet") or field.get("evidence")`. -/
def resolveSnippet (fd : List (String × PyVal)) : PyVal :=
  pyOr (dictGet fd "requestedSnippet") (pyOr (dictGet fd "snippet") (dictGet fd "evidence"))

/-- `field.get("field") or field.get("name") or field.get("path") or ""`. -/
def resolveFieldName (fd : List (String × PyVal)) : PyVal :=
  pyOr (dictGet fd "field") (pyOr (dictGet fd "name") (pyOr (dictGet fd "path") (.vStr "")))

/-- `bool(requested_snippet) and requested_snippet in turn_text`: a truthy
non-string left operand of `in` raises `TypeError`. -/
def snippetFound (txt : String) (snip : PyVal) : Except PyErr Bool :=
  if pyTruthy snip then
    match snip with
    | .vStr s => .ok (strContains txt s)
    | _ => .error .typeError
  else .ok false

/-- `bool(value) and str(value) in turn_text`. -/
def valueFound (txt : String) (value : PyVal) : Bool :=
  pyTruthy value && strContains txt (pyStr value)

/-- The offset-repair block: when at least one of `startChar`/`endChar` is an
int (Python `bool` included), produce the clamped pair and whether either
numeric value changed; otherwise the block is skipped (`none`). -/
def clampOffsets (txt : String) (start_char end_char : PyVal) :
    Option (PyVal × PyVal × Bool) :=
  if isIntLike start_char || isIntLike end_char then
    let text_len : Int := txt.length
    let start := if isIntLike start_char then start_char else .vInt 0
    let endv := if isIntLike end_char then end_char else .vInt text_len
    let fixed_start := pyMax (.vInt 0) (pyMin start (.vInt text_len))
    let fixed_end := pyMax fixed_start (pyMin endv (.vInt text_len))
    let changed :=
      !(intLikeVal fixed_start == intLikeVal start && intLikeVal fixed_end == intLikeVal endv)
    some (fixed_start, fixed_end, changed)
  else none

/-- One per-field entry of the sanitize report. -/
structure FieldReport where
  field : PyVal
  turnIndex : PyVal
  reason : String
  matchedBy : String
  turnTextPreview : String
  snippetPreview : String
  valuePreview : String

/-- Assemble the per-field report entry appended by the loop body. -/
def mkReport (fd : List (String × PyVal)) (turn_index : PyVal)
    (reason matched_by : String) (turn_text : Option String) : FieldReport :=
  { field := resolveFieldName fd
    turnIndex := turn_index
    reason := reason
    matchedBy := matched_by
    turnTextPreview := redact_preview (match turn_text with | some t => .vStr t | none => .vNone)
    snippetPreview := redact_preview (resolveSnippet fd)
    valuePreview := redact_preview (dictGet fd "value") }

/-- One iteration of the per-field loop of `sanitizeExtractionTrace`: yields
the claim copy, the report entry, and the two counter increments
(`invalid_evidence_count`, `fixed_offset_count`) as flags. -/
def processField (turns : List String) (fieldv : PyVal) :
    Except PyErr (List (String × PyVal) × FieldReport × Bool × Bool) :=
  match pyToDict fieldv with
  | .error e => .error e
  | .ok fd =>
    let turn_index := dictGet fd "turnIndex"
    match validTurnText turns turn_index with
    | none =>
        .ok (fd, mkReport fd turn_index "invalid_turnIndex" "none" none, true, false)
    | some txt =>
        let requested_snippet := resolveSnippet fd
        let copyFix :=
          match clampOffsets txt (dictGet fd "startChar") (dictGet fd "endChar") with
          | some (fs, fe, ch) => (setKey (setKey fd "startChar" fs) "endChar" fe, ch)
          | none => (fd, false)
        let reason0 : String := if copyFix.2 then "offset_fixed" else "ok"
        match snippetFound txt requested_snippet with
        | .error e => .error e
        | .ok sf =>
          let vf := valueFound txt (dictGet fd "value")
          let mbr : String × String :=
            if sf then
              ("snippet", if reason0 == "offset_fixed" then reason0 else "ok")
            else if pyTruthy requested_snippet then
              ((if vf then "value" else "none"),
                if reason0 == "offset_fixed" then "offset_fixed" else "snippet_not_found")
            else if vf then
              ("value", if reason0 == "offset_fixed" then reason0 else "ok")
            else
              ("none", if reason0 == "offset_fixed" then reason0 else "value_not_found")
          .ok (copyFix.1, mkReport fd turn_index mbr.2 mbr.1 (some txt), false, copyFix.2)

/-- The per-field loop: claim copies, report entries, and the two counters. -/
def sanitizeFields (turns : List String) :
    List PyVal → Except PyErr (List (List (String × PyVal)) × List FieldReport × Nat × Nat)
  | [] => .ok ([], [], 0, 0)
  | f :: fs =>
      match processField turns f with
      | .error e => .error e
      | .ok (c, r, inv, fix) =>
          match sanitizeFields turns fs with
          | .error e => .error e
          | .ok (cs, rs, invs, fixs) =>
              .ok (c :: cs, r :: rs, (if inv then 1 else 0) + invs, (if fix then 1 else 0) + fixs)

/-- The sanitized trace: `{"turns": [{"text": t}, ...], "perField": [claim copies]}`. -/
structure SanitizedTrace where
  turns : List String
  perField : List (List (String × PyVal))

/-- The aggregate sanitize report. -/
structure SanitizeReport where
  invalidEvidenceCount : Nat
  fixedOffsetCount : Nat
  perField : List FieldReport

/-- The body of `sanitizeExtractionTrace` once the input is known to be a
mapping: extract the turns, resolve and iterate the per-field list, run the
loop, and build the two result dicts. -/
def sanitizeDict (d : List (String × PyVal)) :
    Except PyErr (SanitizedTrace × SanitizeReport) :=
  match pyIter (perFieldRaw d) with
  | .error e => .error e
  | .ok fields =>
      match sanitizeFields (extract_turns d) fields with
      | .error e => .error e
      | .ok (cs, rs, inv, fix) => .ok (⟨extract_turns d, cs⟩, ⟨inv, fix, rs⟩)

/-- `sanitizeExtractionTrace(extraction_trace)`: non-mapping input raises
`AttributeError` (no `.get`); a truthy non-iterable per-field value raises
`TypeError`; otherwise the per-field loop runs. -/
def sanitizeExtractionTrace (tr : PyVal) :
    Except PyErr (SanitizedTrace × SanitizeReport) :=
  match tr with
  | .vDict d => sanitizeDict d
  | _ => .error .attributeError

/-- The sanitized trace re-encoded as the dict `sanitizeExtractionTrace`
returns, as fed back in for re-sanitization. -/
def SanitizedTrace.toPyVal (st : SanitizedTrace) : PyVal :=
  .vDict [("turns", .vList (st.turns.map fun t => .vDict [("text", .vStr t)])),
          ("perField", .vList (st.perField.map .vDict))]

theorem dictGet_setKey_self (d : List (String × PyVal)) (k : String) (v : PyVal) :
    dictGet (setKey d k v) k = v := by
  induction d with
  | nil => simp [setKey, dictGet]
  | cons p rest ih =>
      obtain ⟨k', v'⟩ := p
      by_cases h : k' = k
      · simp [setKey, dictGet, h]
      · simp [setKey, dictGet, h, ih]

theorem dictGet_setKey_of_ne (d : List (String × PyVal)) (k k' : String) (v : PyVal)
    (h : k' ≠ k) : dictGet (setKey d k v) k' = dictGet d k' := by
  induction d with
  | nil => simp [setKey, dictGet, Ne.symm h]
  | cons p rest ih =>
      obtain ⟨k₀, v₀⟩ := p
      by_cases h₀ : k₀ = k
      · subst h₀
        simp [setKey, dictGet, Ne.symm h]
      · by_cases h₁ : k₀ = k'
        · simp [setKey, dictGet, h₀, h₁, h]
        · simp [setKey, dictGet, h₀, h₁, ih]

theorem hasKey_setKey_self (d : List (String × PyVal)) (k : String) (v : PyVal) :
    hasKey (setKey d k v) k = true := by
  induction d with
  | nil => simp [setKey, hasKey]
  | cons p rest ih =>
      obtain ⟨k', v'⟩ := p
      by_cases h : k' = k
      · simp [setKey, hasKey, h]
      · simp [setKey, hasKey, h, ih]

theorem hasKey_setKey_of_ne (d : List (String × PyVal)) (k k' : String) (v : PyVal)
    (h : k' ≠ k) : hasKey (setKey d k v) k' = hasKey d k' := by
  induction d with
  | nil => simp [setKey, hasKey, Ne.symm h]
  | cons p rest ih =>
      obtain ⟨k₀, v₀⟩ := p
      by_cases h₀ : k₀ = k
      · subst h₀
        simp [setKey, hasKey, Ne.symm h]
      · simp [setKey, hasKey, h₀, ih]

theorem setKey_eq_self_of_get (d : List (String × PyVal)) (k : String)
    (hk : hasKey d k = true) : setKey d k (dictGet d k) = d := by
  induction d with
  | nil => simp [hasKey] at hk
  | cons p rest ih =>
      obtain ⟨k₀, v₀⟩ := p
      by_cases h₀ : k₀ = k
      · simp [setKey, dictGet, h₀]
      · simp [hasKey, h₀] at hk
        simp [setKey, dictGet, h₀, ih hk]

/-- `validTurnText` is `none` exactly when `turnIndex` is not an integer
(Python `bool` included) within `[0, len(turns))`. -/
theorem validTurnText_eq_none_iff (turns : List String) (ti : PyVal) :
    validTurnText turns ti = none ↔
      ¬∃ n : Int, asIntLike ti = some n ∧ 0 ≤ n ∧ n < (turns.length : Int) := by
  unfold validTurnText
  cases h : asIntLike ti with
  | none => simp [h]
  | some i =>
      by_cases hr : 0 ≤ i ∧ i < (turns.length : Int)
      · simp [h, hr]
      · simp only [h, hr, if_false, if_neg hr]
        constructor
        · intro _ hex
          obtain ⟨n, hn, h0, h1⟩ := hex
          rw [Option.some_inj] at hn
          subst hn
          exact hr ⟨h0, h1⟩
        · intro _
          trivial

/-- C2: for every field claim, the emitted report has reason
`invalid_turnIndex` iff the claim's `turnIndex` is not an integer in
`[0, len(turns))`; exactly then the invalid-evidence counter is incremented
(`i = true`), no snippet/value matching is attempted (`matchedBy = "none"`),
the offset-fix flag stays off, and the claim copy — `startChar`/`endChar`
included — is left untouched. -/
theorem claim_C2 (turns : List String) (fd : List (String × PyVal))
    (c : List (String × PyVal)) (r : FieldReport) (i b : Bool)
    (h : processField turns (.vDict fd) = .ok (c, r, i, b)) :
    ((r.reason = "invalid_turnIndex") ↔
        ¬∃ n : Int, asIntLike (dictGet fd "turnIndex") = some n ∧
          0 ≤ n ∧ n < (turns.length : Int)) ∧
    (i = true ↔ r.reason = "invalid_turnIndex") ∧
    (r.reason = "invalid_turnIndex" → c = fd ∧ r.matchedBy = "none" ∧ b = false) := by
  rw [← validTurnText_eq_none_iff]
  cases hv : validTurnText turns (dictGet fd "turnIndex") with
  | none =>
      simp [processField, pyToDict, hv] at h
      obtain ⟨hc, hr, hi, hb⟩ := h
      subst hc
      subst hr
      subst hi
      subst hb
      simp [mkReport]
  | some txt =>
      cases hs : snippetFound txt (resolveSnippet fd) with
      | error e =>
          exfalso
          simp [processField, pyToDict, hv, hs] at h
      | ok sf =>
          simp [processField, pyToDict, hv, hs] at h
          obtain ⟨hc, hr, hi, hb⟩ := h
          subst hr
          subst hi
          refine ⟨?_, ?_, ?_⟩ <;> simp [mkReport, hv] <;> split_ifs <;> simp_all <;> decide

/-- C2 witness: a claim naming turn 5 against a single-turn conversation is
reported as `invalid_turnIndex`. -/
theorem claim_C2_witness :
    ((mkReport [("turnIndex", .vInt 5)] (.vInt 5) "invalid_turnIndex" "none" none).reason =
        "invalid_turnIndex") ↔
      ¬∃ n : Int, asIntLike (dictGet [("turnIndex", .vInt 5)] "turnIndex") = some n ∧
        0 ≤ n ∧ n < ((["ab"] : List String).length : Int) :=
  (claim_C2 ["ab"] [("turnIndex", .vInt 5)] [("turnIndex", .vInt 5)]
    (mkReport [("turnIndex", .vInt 5)] (.vInt 5) "invalid_turnIndex" "none" none)
    true false rfl).1

/-- C3: for a field claim with a valid turn, `matchedBy` and `reason` follow
the ordered, case-sensitive exact-substring decision table (the offset-fix
flag `b` preserves an earlier `offset_fixed` reason): a found snippet wins
(`matchedBy = "snippet"`, reason `ok` unless offset-fixed); a requested but
unfound snippet gives `snippet_not_found` (unless offset-fixed) with
`matchedBy` falling back to the value; with no snippet requested, a found
value matches as `value` with reason `ok`, and otherwise `value_not_found`.
Falsy snippets and values never match (`snippetFound`/`valueFound` are false
on them by definition). -/
theorem claim_C3 (turns : List String) (fd : List (String × PyVal))
    (c : List (String × PyVal)) (r : FieldReport) (i b : Bool) (txt : String) (sf : Bool)
    (h : processField turns (.vDict fd) = .ok (c, r, i, b))
    (hv : validTurnText turns (dictGet fd "turnIndex") = some txt)
    (hs : snippetFound txt (resolveSnippet fd) = .ok sf) :
    (sf = true → r.matchedBy = "snippet" ∧
        r.reason = (if b then "offset_fixed" else "ok")) ∧
    (sf = false → pyTruthy (resolveSnippet fd) = true →
        r.reason = (if b then "offset_fixed" else "snippet_not_found") ∧
        r.matchedBy = (if valueFound txt (dictGet fd "value") then "value" else "none")) ∧
    (pyTruthy (resolveSnippet fd) = false → valueFound txt (dictGet fd "value") = true →
        r.matchedBy = "value" ∧ r.reason = (if b then "offset_fixed" else "ok")) ∧
    (pyTruthy (resolveSnippet fd) = false → valueFound txt (dictGet fd "value") = false →
        r.matchedBy = "none" ∧
        r.reason = (if b then "offset_fixed" else "value_not_found")) := by
  simp [processField, pyToDict, hv, hs] at h
  obtain ⟨hc, hr, hi, hb⟩ := h
  subst hr
  subst hi
  have hsf : pyTruthy (resolveSnippet fd) = false → sf = false := by
    intro hfal
    simp [snippetFound, hfal] at hs
    exact hs
  refine ⟨?_, ?_, ?_, ?_⟩ <;> intro h1 <;> try intro h2
  · subst h1
    refine ⟨by simp [mkReport], ?_⟩
    simp [mkReport]
    split_ifs <;> simp_all
  · subst h1
    constructor
    · simp [mkReport, h2]
      split_ifs <;> simp_all
    · simp [mkReport, h2]
  · have h0 := hsf h1
    subst h0
    constructor
    · simp [mkReport, h1, h2]
    · simp [mkReport, h1, h2]
      split_ifs <;> simp_all
  · have h0 := hsf h1
    subst h0
    constructor
    · simp [mkReport, h1, h2]
    · simp [mkReport, h1, h2]
      split_ifs <;> simp_all

/-- C3 witness: with both snippet (`"North"`) and value (`"Hospital"`) found
in the turn text, the snippet takes priority and the reason is `ok`. -/
theorem claim_C3_witness :
    (mkReport
        [("turnIndex", .vInt 0), ("requestedSnippet", .vStr "North"), ("value", .vStr "Hospital")]
        (.vInt 0) "ok" "snippet" (some "North Hospital")).matchedBy = "snippet" ∧
    (mkReport
        [("turnIndex", .vInt 0), ("requestedSnippet", .vStr "North"), ("value", .vStr "Hospital")]
        (.vInt 0) "ok" "snippet" (some "North Hospital")).reason =
      (if false then "offset_fixed" else "ok") :=
  (claim_C3 ["North Hospital"]
    [("turnIndex", .vInt 0), ("requestedSnippet", .vStr "North"), ("value", .vStr "Hospital")]
    [("turnIndex", .vInt 0), ("requestedSnippet", .vStr "North"), ("value", .vStr "Hospital")]
    (mkReport
      [("turnIndex", .vInt 0), ("requestedSnippet", .vStr "North"), ("value", .vStr "Hospital")]
      (.vInt 0) "ok" "snippet" (some "North Hospital"))
    false false "North Hospital" true rfl rfl rfl).1 rfl

theorem intLikeVal_pyMin (a b : PyVal) :
    intLikeVal (pyMin a b) = min (intLikeVal a) (intLikeVal b) := by
  simp [pyMin]
  split_ifs <;> omega

theorem intLikeVal_pyMax (a b : PyVal) :
    intLikeVal (pyMax a b) = max (intLikeVal a) (intLikeVal b) := by
  simp [pyMax]
  split_ifs <;> omega

theorem pyMin_eq_or (a b : PyVal) : pyMin a b = a ∨ pyMin a b = b := by
  unfold pyMin
  split_ifs <;> simp

theorem pyMax_eq_or (a b : PyVal) : pyMax a b = a ∨ pyMax a b = b := by
  unfold pyMax
  split_ifs <;> simp

theorem isIntLike_pyMin (a b : PyVal) (ha : isIntLike a = true) (hb : isIntLike b = true) :
    isIntLike (pyMin a b) = true := by
  rcases pyMin_eq_or a b with h | h <;> rw [h] <;> assumption

theorem isIntLike_pyMax (a b : PyVal) (ha : isIntLike a = true) (hb : isIntLike b = true) :
    isIntLike (pyMax a b) = true := by
  rcases pyMax_eq_or a b with h | h <;> rw [h] <;> assumption

/-- `clampOffsets` runs exactly when at least one offset is int-like. -/
theorem clampOffsets_isSome_iff (txt : String) (sc ec : PyVal) :
    (clampOffsets txt sc ec).isSome = (isIntLike sc || isIntLike ec) := by
  unfold clampOffsets
  split_ifs with hif <;> simp_all

/-- Bounds of the clamped offsets: both are int-like and satisfy
`0 ≤ fixed_start ≤ fixed_end ≤ len(turn_text)`. -/
theorem clampOffsets_bounds (txt : String) (sc ec fs fe : PyVal) (ch : Bool)
    (h : clampOffsets txt sc ec = some (fs, fe, ch)) :
    isIntLike fs = true ∧ isIntLike fe = true ∧
    0 ≤ intLikeVal fs ∧ intLikeVal fs ≤ intLikeVal fe ∧
    intLikeVal fe ≤ (txt.length : Int) := by
  have hL : (0 : Int) ≤ (txt.length : Int) := Int.ofNat_nonneg _
  unfold clampOffsets at h
  split_ifs at h <;>
    first
    | exact Option.noConfusion h
    | (cases h
       refine ⟨?_, ?_, ?_, ?_, ?_⟩ <;>
         first
         | ((repeat' first | rfl | assumption | apply isIntLike_pyMax | apply isIntLike_pyMin)
            done)
         | (simp only [intLikeVal_pyMax, intLikeVal_pyMin]
            first
            | exact le_max_left _ _
            | exact max_le (max_le hL (min_le_right _ _)) (min_le_right _ _)))

/-- C5: the claim copy differs from the input claim in at most
`startChar`/`endChar`; with an invalid turn the copy is exactly the input
claim; with a valid turn, the copy equals the input when neither offset is an
integer, and otherwise its offsets are integers satisfying
`0 ≤ startChar ≤ endChar ≤ len(turnText)`. -/
theorem claim_C5 (turns : List String) (fd c : List (String × PyVal))
    (r : FieldReport) (i b : Bool)
    (h : processField turns (.vDict fd) = .ok (c, r, i, b)) :
    (∀ k, k ≠ "startChar" → k ≠ "endChar" → dictGet c k = dictGet fd k) ∧
    (validTurnText turns (dictGet fd "turnIndex") = none → c = fd) ∧
    (∀ txt, validTurnText turns (dictGet fd "turnIndex") = some txt →
      ((isIntLike (dictGet fd "startChar") || isIntLike (dictGet fd "endChar")) = false →
        c = fd) ∧
      ((isIntLike (dictGet fd "startChar") || isIntLike (dictGet fd "endChar")) = true →
        isIntLike (dictGet c "startChar") = true ∧ isIntLike (dictGet c "endChar") = true ∧
        0 ≤ intLikeVal (dictGet c "startChar") ∧
        intLikeVal (dictGet c "startChar") ≤ intLikeVal (dictGet c "endChar") ∧
        intLikeVal (dictGet c "endChar") ≤ (txt.length : Int))) := by
  cases hv : validTurnText turns (dictGet fd "turnIndex") with
  | none =>
      simp [processField, pyToDict, hv] at h
      obtain ⟨hc, hr, hi, hb⟩ := h
      subst hc
      exact ⟨fun k _ _ => rfl, fun _ => rfl, fun txt hx => Option.noConfusion hx⟩
  | some txt =>
      cases hs : snippetFound txt (resolveSnippet fd) with
      | error e =>
          exfalso
          simp [processField, pyToDict, hv, hs] at h
      | ok sf =>
          simp [processField, pyToDict, hv, hs] at h
          obtain ⟨hc, hr, hi, hb⟩ := h
          cases hcl : clampOffsets txt (dictGet fd "startChar") (dictGet fd "endChar") with
          | none =>
              rw [hcl] at hc
              simp at hc
              subst hc
              have hno : (isIntLike (dictGet fd "startChar") ||
                  isIntLike (dictGet fd "endChar")) = false := by
                have := clampOffsets_isSome_iff txt (dictGet fd "startChar") (dictGet fd "endChar")
                rw [hcl] at this
                simpa using this.symm
              refine ⟨fun k _ _ => rfl, fun h0 => Option.noConfusion h0, fun txt' hx => ?_⟩
              refine ⟨fun _ => rfl, fun hyes => ?_⟩
              rw [hno] at hyes
              cases hyes
          | some p =>
              obtain ⟨fs, fe, ch⟩ := p
              rw [hcl] at hc
              simp at hc
              subst hc
              have hyes : (isIntLike (dictGet fd "startChar") ||
                  isIntLike (dictGet fd "endChar")) = true := by
                have := clampOffsets_isSome_iff txt (dictGet fd "startChar") (dictGet fd "endChar")
                rw [hcl] at this
                simpa using this.symm
              have hS : dictGet (setKey (setKey fd "startChar" fs) "endChar" fe) "startChar" = fs := by
                rw [dictGet_setKey_of_ne _ _ _ _ (by decide), dictGet_setKey_self]
              have hE : dictGet (setKey (setKey fd "startChar" fs) "endChar" fe) "endChar" = fe :=
                dictGet_setKey_self _ _ _
              obtain ⟨hb1, hb2, hb3, hb4, hb5⟩ :=
                clampOffsets_bounds txt (dictGet fd "startChar") (dictGet fd "endChar") fs fe ch hcl
              refine ⟨fun k hk1 hk2 => ?_, fun h0 => Option.noConfusion h0, fun txt' hx => ?_⟩
              · rw [dictGet_setKey_of_ne _ _ _ _ hk2, dictGet_setKey_of_ne _ _ _ _ hk1]
              · injection hx with hxx
                subst hxx
                refine ⟨fun hno => ?_, fun _ => ⟨?_, ?_, ?_, ?_, ?_⟩⟩
                · rw [hyes] at hno
                  cases hno
                · rw [hS]
                  exact hb1
                · rw [hE]
                  exact hb2
                · rw [hS]
                  exact hb3
                · rw [hS, hE]
                  exact hb4
                · rw [hE]
                  exact hb5

/-- C5 witness: attributes other than the offsets (here `turnIndex`) pass
through the copy unchanged on a claim whose offsets get clamped. -/
theorem claim_C5_witness :
    dictGet [("turnIndex", .vInt 0), ("startChar", .vInt 0), ("endChar", .vInt 4)]
        "turnIndex" =
      dictGet [("turnIndex", .vInt 0), ("startChar", .vInt (-1)), ("endChar", .vInt 9)]
        "turnIndex" :=
  (claim_C5 ["abcd"]
    [("turnIndex", .vInt 0), ("startChar", .vInt (-1)), ("endChar", .vInt 9)]
    [("turnIndex", .vInt 0), ("startChar", .vInt 0), ("endChar", .vInt 4)]
    (mkReport [("turnIndex", .vInt 0), ("startChar", .vInt (-1)), ("endChar", .vInt 9)]
      (.vInt 0) "offset_fixed" "none" (some "abcd"))
    false true rfl).1 "turnIndex" (by decide) (by decide)

theorem intLikeVal_ite (v : PyVal) (z : Int) :
    intLikeVal (if isIntLike v = true then v else .vInt z) =
      if isIntLike v = true then intLikeVal v else z := by
  split_ifs <;> simp [intLikeVal, asIntLike]

/-- C6: with a valid turn and at least one offset present as an integer, the
copy's offsets are overwritten with `start = clamp(startChar or 0, 0, L)` and
`end = clamp(endChar or L, start, L)`; the fixed-offset counter flag is set
and the reason ends up `offset_fixed` (surviving the matching step) exactly
when one of the two numeric values changed. -/
theorem claim_C6 (turns : List String) (fd c : List (String × PyVal))
    (r : FieldReport) (i b : Bool) (txt : String)
    (h : processField turns (.vDict fd) = .ok (c, r, i, b))
    (hv : validTurnText turns (dictGet fd "turnIndex") = some txt)
    (hint : (isIntLike (dictGet fd "startChar") || isIntLike (dictGet fd "endChar")) = true) :
    intLikeVal (dictGet c "startChar") =
      max 0 (min (if isIntLike (dictGet fd "startChar") then
          intLikeVal (dictGet fd "startChar") else 0) (txt.length : Int)) ∧
    intLikeVal (dictGet c "endChar") =
      max (intLikeVal (dictGet c "startChar"))
        (min (if isIntLike (dictGet fd "endChar") then
            intLikeVal (dictGet fd "endChar") else (txt.length : Int)) (txt.length : Int)) ∧
    (b = true ↔
      (intLikeVal (dictGet c "startChar") ≠ (if isIntLike (dictGet fd "startChar") then
          intLikeVal (dictGet fd "startChar") else 0) ∨
       intLikeVal (dictGet c "endChar") ≠ (if isIntLike (dictGet fd "endChar") then
          intLikeVal (dictGet fd "endChar") else (txt.length : Int)))) ∧
    (r.reason = "offset_fixed" ↔ b = true) := by
  cases hs : snippetFound txt (resolveSnippet fd) with
  | error e =>
      exfalso
      simp [processField, pyToDict, hv, hs] at h
  | ok sf =>
      simp [processField, pyToDict, hv, hs] at h
      obtain ⟨hc, hr, hi, hb⟩ := h
      cases hcl : clampOffsets txt (dictGet fd "startChar") (dictGet fd "endChar") with
      | none =>
          exfalso
          have := clampOffsets_isSome_iff txt (dictGet fd "startChar") (dictGet fd "endChar")
          rw [hcl, hint] at this
          simp at this
      | some p =>
          obtain ⟨fs, fe, ch⟩ := p
          rw [hcl] at hc hb hr
          simp only at hc hb hr
          subst hc
          subst hb
          subst hr
          have hS : dictGet (setKey (setKey fd "startChar" fs) "endChar" fe) "startChar" = fs := by
            rw [dictGet_setKey_of_ne _ _ _ _ (by decide), dictGet_setKey_self]
          have hE : dictGet (setKey (setKey fd "startChar" fs) "endChar" fe) "endChar" = fe :=
            dictGet_setKey_self _ _ _
          unfold clampOffsets at hcl
          rw [hint] at hcl
          simp only [eq_self_iff_true, if_true, Option.some_inj, Prod.mk.injEq] at hcl
          obtain ⟨hfs, hfe, hch⟩ := hcl
          refine ⟨?_, ?_, ?_, ?_⟩
          · rw [hS, ← hfs, intLikeVal_pyMax, intLikeVal_pyMin, intLikeVal_ite]
            simp [intLikeVal, asIntLike]
          · rw [hE, hS, ← hfe, ← hfs, intLikeVal_pyMax, intLikeVal_pyMin, intLikeVal_ite]
            simp [intLikeVal, asIntLike]
          · rw [hS, hE, ← hch, ← hfs, ← hfe]
            rw [intLikeVal_pyMax, intLikeVal_pyMax, intLikeVal_pyMin, intLikeVal_pyMin,
              intLikeVal_ite, intLikeVal_ite]
            simp [intLikeVal, asIntLike]
          · simp [mkReport]
            cases hchv : ch <;> split_ifs <;> simp_all

/-- C6 witness (scenario C): `startChar: -5, endChar: 400` on a 40-character
turn yields offsets `(0, 40)` and reason `offset_fixed`. -/
theorem claim_C6_witness :
    intLikeVal (dictGet
      [("turnIndex", PyVal.vInt 0), ("startChar", PyVal.vInt 0), ("endChar", PyVal.vInt 40)]
      "startChar") = 0 ∧
    intLikeVal (dictGet
      [("turnIndex", PyVal.vInt 0), ("startChar", PyVal.vInt 0), ("endChar", PyVal.vInt 40)]
      "endChar") = 40 ∧
    ((mkReport
        [("turnIndex", PyVal.vInt 0), ("startChar", PyVal.vInt (-5)), ("endChar", PyVal.vInt 400)]
        (PyVal.vInt 0) "offset_fixed" "none"
        (some "0123456789012345678901234567890123456789")).reason = "offset_fixed" ↔
      true = true) := by
  have h := claim_C6 ["0123456789012345678901234567890123456789"]
    [("turnIndex", PyVal.vInt 0), ("startChar", PyVal.vInt (-5)), ("endChar", PyVal.vInt 400)]
    [("turnIndex", PyVal.vInt 0), ("startChar", PyVal.vInt 0), ("endChar", PyVal.vInt 40)]
    (mkReport
      [("turnIndex", PyVal.vInt 0), ("startChar", PyVal.vInt (-5)), ("endChar", PyVal.vInt 400)]
      (PyVal.vInt 0) "offset_fixed" "none"
      (some "0123456789012345678901234567890123456789"))
    false true "0123456789012345678901234567890123456789" rfl rfl rfl
  exact ⟨h.1.trans (by decide), h.2.1.trans (by decide), h.2.2.2⟩

/-- The per-field counter flags coincide with the final reason: the
invalid-evidence flag is set iff the reason is `invalid_turnIndex`, and the
fixed-offset flag iff the reason is `offset_fixed`. -/
theorem processField_flags (turns : List String) (f : PyVal)
    (c : List (String × PyVal)) (r : FieldReport) (i b : Bool)
    (h : processField turns f = .ok (c, r, i, b)) :
    i = (r.reason == "invalid_turnIndex") ∧ b = (r.reason == "offset_fixed") := by
  cases f with
  | vDict fd =>
      cases hv : validTurnText turns (dictGet fd "turnIndex") with
      | none =>
          simp [processField, pyToDict, hv] at h
          obtain ⟨hc, hr, hi, hb⟩ := h
          subst hr
          subst hi
          subst hb
          simp [mkReport]
      | some txt =>
          cases hs : snippetFound txt (resolveSnippet fd) with
          | error e =>
              exfalso
              simp [processField, pyToDict, hv, hs] at h
          | ok sf =>
              simp [processField, pyToDict, hv, hs] at h
              obtain ⟨hc, hr, hi, hb⟩ := h
              subst hr
              subst hi
              subst hb
              constructor
              · simp [mkReport]
                split_ifs <;> simp_all <;> decide
              · simp [mkReport]
                split_ifs <;> simp_all
  | vStr s => simp [processField, pyToDict] at h
  | vInt n => simp [processField, pyToDict] at h
  | vBool bb => simp [processField, pyToDict] at h
  | vNone => simp [processField, pyToDict] at h
  | vList l => simp [processField, pyToDict] at h

/-- Shape of a successful per-field loop run: lengths are preserved in order,
and the two counters are the number of reports whose final reason is
`invalid_turnIndex` (resp. `offset_fixed`). -/
theorem sanitizeFields_spec (turns : List String) (fs : List PyVal)
    (cs : List (List (String × PyVal))) (rs : List FieldReport) (inv fix : Nat)
    (h : sanitizeFields turns fs = .ok (cs, rs, inv, fix)) :
    cs.length = fs.length ∧ rs.length = fs.length ∧
    inv = (rs.filter fun r => r.reason == "invalid_turnIndex").length ∧
    fix = (rs.filter fun r => r.reason == "offset_fixed").length ∧
    List.Forall₂ (fun f cr => ∃ i b, processField turns f = .ok (cr.1, cr.2, i, b))
      fs (cs.zip rs) := by
  induction fs generalizing cs rs inv fix with
  | nil =>
      simp only [sanitizeFields, Except.ok.injEq, Prod.mk.injEq] at h
      obtain ⟨hc, hr, hi, hf⟩ := h
      subst hc
      subst hr
      subst hi
      subst hf
      simp
  | cons f fs ih =>
      unfold sanitizeFields at h
      cases hpf : processField turns f with
      | error e => rw [hpf] at h; cases h
      | ok q =>
          obtain ⟨c, r, i, b⟩ := q
          rw [hpf] at h
          cases hrec : sanitizeFields turns fs with
          | error e => rw [hrec] at h; cases h
          | ok q2 =>
              obtain ⟨cs', rs', invs, fixs⟩ := q2
              rw [hrec] at h
              simp only [Except.ok.injEq, Prod.mk.injEq] at h
              obtain ⟨hc, hr, hi, hf⟩ := h
              subst hc
              subst hr
              subst hi
              subst hf
              obtain ⟨hl1, hl2, hinv, hfix, hcorr⟩ := ih cs' rs' invs fixs hrec
              obtain ⟨hflag1, hflag2⟩ := processField_flags turns f c r i b hpf
              refine ⟨by simp [hl1], by simp [hl2], ?_, ?_, ?_⟩
              · subst hflag1
                cases hq : (r.reason == "invalid_turnIndex") with
                | false => simp [List.filter, hq, hinv]
                | true => simp [List.filter, hq, hinv, Nat.add_comm]
              · subst hflag2
                cases hq : (r.reason == "offset_fixed") with
                | false => simp [List.filter, hq, hfix]
                | true => simp [List.filter, hq, hfix, Nat.add_comm]
              · exact List.Forall₂.cons ⟨i, b, hpf⟩ hcorr

/-- C10: the aggregate counters agree exactly with the per-field reports:
`invalidEvidenceCount` is the number of reports with reason
`invalid_turnIndex` and `fixedOffsetCount` the number with reason
`offset_fixed`. -/
theorem claim_C10 (d : List (String × PyVal)) (st : SanitizedTrace) (rep : SanitizeReport)
    (h : sanitizeExtractionTrace (.vDict d) = .ok (st, rep)) :
    rep.invalidEvidenceCount =
      (rep.perField.filter fun r => r.reason == "invalid_turnIndex").length ∧
    rep.fixedOffsetCount =
      (rep.perField.filter fun r => r.reason == "offset_fixed").length := by
  replace h : sanitizeDict d = .ok (st, rep) := h
  unfold sanitizeDict at h
  cases hit : pyIter (perFieldRaw d) with
  | error e => rw [hit] at h; cases h
  | ok fields =>
      rw [hit] at h
      dsimp only at h
      cases hsf : sanitizeFields (extract_turns d) fields with
      | error e => rw [hsf] at h; cases h
      | ok q =>
          obtain ⟨cs, rs, inv, fix⟩ := q
          rw [hsf] at h
          dsimp only at h
          simp only [Except.ok.injEq, Prod.mk.injEq] at h
          obtain ⟨hst, hrep⟩ := h
          subst hst
          subst hrep
          obtain ⟨_, _, hinv, hfix, _⟩ := sanitizeFields_spec _ _ _ _ _ _ hsf
          exact ⟨hinv, hfix⟩

/-- C10 witness: on a two-field input (one invalid turn index, one offset
repair) both counters equal the corresponding report counts. -/
theorem claim_C10_witness :
    (1 : Nat) = (List.filter (fun r => r.reason == "invalid_turnIndex")
      [mkReport [("turnIndex", PyVal.vInt 7)] (PyVal.vInt 7) "invalid_turnIndex" "none" none,
       mkReport [("turnIndex", PyVal.vInt 0), ("startChar", PyVal.vInt (-2))]
         (PyVal.vInt 0) "offset_fixed" "none" (some "ab")]).length ∧
    (1 : Nat) = (List.filter (fun r => r.reason == "offset_fixed")
      [mkReport [("turnIndex", PyVal.vInt 7)] (PyVal.vInt 7) "invalid_turnIndex" "none" none,
       mkReport [("turnIndex", PyVal.vInt 0), ("startChar", PyVal.vInt (-2))]
         (PyVal.vInt 0) "offset_fixed" "none" (some "ab")]).length :=
  claim_C10
    [("turns", .vList [.vStr "ab"]),
     ("perField", .vList [.vDict [("turnIndex", .vInt 7)],
                          .vDict [("turnIndex", .vInt 0), ("startChar", .vInt (-2))]])]
    ⟨["ab"], [[("turnIndex", PyVal.vInt 7)],
              [("turnIndex", PyVal.vInt 0), ("startChar", PyVal.vInt 0), ("endChar", PyVal.vInt 2)]]⟩
    ⟨1, 1, [mkReport [("turnIndex", PyVal.vInt 7)] (PyVal.vInt 7) "invalid_turnIndex" "none" none,
            mkReport [("turnIndex", PyVal.vInt 0), ("startChar", PyVal.vInt (-2))]
              (PyVal.vInt 0) "offset_fixed" "none" (some "ab")]⟩
    rfl

/-- C4: no field claim is discarded, reordered, or duplicated: both output
`perField` sequences have exactly the length of the resolved input field
list, and position-wise the i-th claim copy and i-th report are the result
of processing the i-th input claim. -/
theorem claim_C4 (d : List (String × PyVal)) (st : SanitizedTrace) (rep : SanitizeReport)
    (h : sanitizeExtractionTrace (.vDict d) = .ok (st, rep)) :
    ∃ fs, pyIter (perFieldRaw d) = .ok fs ∧
      st.perField.length = fs.length ∧ rep.perField.length = fs.length ∧
      List.Forall₂ (fun f cr => ∃ i b, processField (extract_turns d) f = .ok (cr.1, cr.2, i, b))
        fs (st.perField.zip rep.perField) := by
  replace h : sanitizeDict d = .ok (st, rep) := h
  unfold sanitizeDict at h
  cases hit : pyIter (perFieldRaw d) with
  | error e => rw [hit] at h; cases h
  | ok fields =>
      rw [hit] at h
      dsimp only at h
      cases hsf : sanitizeFields (extract_turns d) fields with
      | error e => rw [hsf] at h; cases h
      | ok q =>
          obtain ⟨cs, rs, inv, fix⟩ := q
          rw [hsf] at h
          dsimp only at h
          simp only [Except.ok.injEq, Prod.mk.injEq] at h
          obtain ⟨hst, hrep⟩ := h
          subst hst
          subst hrep
          obtain ⟨hl1, hl2, _, _, hcorr⟩ := sanitizeFields_spec _ _ _ _ _ _ hsf
          exact ⟨fields, rfl, hl1, hl2, hcorr⟩

/-- C4 witness: a one-claim input yields one claim copy and one report. -/
theorem claim_C4_witness :
    ∃ fs, pyIter (perFieldRaw
        [("turns", PyVal.vList [PyVal.vStr "hi"]), ("perField", PyVal.vList [PyVal.vDict []])]) =
        .ok fs ∧
      (SanitizedTrace.mk ["hi"] [[]]).perField.length = fs.length ∧
      (SanitizeReport.mk 1 0
        [mkReport [] PyVal.vNone "invalid_turnIndex" "none" none]).perField.length = fs.length ∧
      List.Forall₂ (fun f cr => ∃ i b,
          processField (extract_turns
            [("turns", PyVal.vList [PyVal.vStr "hi"]), ("perField", PyVal.vList [PyVal.vDict []])])
            f = .ok (cr.1, cr.2, i, b))
        fs ((SanitizedTrace.mk ["hi"] [[]]).perField.zip
          (SanitizeReport.mk 1 0
            [mkReport [] PyVal.vNone "invalid_turnIndex" "none" none]).perField) :=
  claim_C4
    [("turns", PyVal.vList [PyVal.vStr "hi"]), ("perField", PyVal.vList [PyVal.vDict []])]
    (SanitizedTrace.mk ["hi"] [[]])
    (SanitizeReport.mk 1 0 [mkReport [] PyVal.vNone "invalid_turnIndex" "none" none])
    rfl

/-- C9 counterexample: with `perField` present but bound to an empty list and
`fields` bound to a one-claim list, the sanitizer consults `fields` and emits
one report — the `fields` key is not ignored although the first-priority key
`perField` is present. -/
theorem claim_C9_counterexample :
    Except.map (fun out => out.2.perField.length)
      (sanitizeExtractionTrace
        (.vDict [("perField", .vList []), ("fields", .vList [.vDict []])])) = .ok 1 ∧
    dictGet [("perField", .vList []), ("fields", .vList [.vDict []])] "perField" =
      .vList [] :=
  ⟨rfl, rfl⟩

/-- C9 amended: the turns list is resolved by trying `turns`, `conversation`,
`conversationTurns`, `turnTexts` in that order, the first key bound to a list
winning even when that list is empty (non-list bindings are skipped); the
field-claim list however is resolved by Python truthiness
(`perField or fields or []`), so a present-but-falsy `perField` — e.g. an
empty list — falls through to `fields`. -/
theorem claim_C9_amended (d : List (String × PyVal)) :
    extract_turns d =
      (match dictGet d "turns" with
       | .vList ts => ts.map extract_turn_text
       | _ =>
         match dictGet d "conversation" with
         | .vList ts => ts.map extract_turn_text
         | _ =>
           match dictGet d "conversationTurns" with
           | .vList ts => ts.map extract_turn_text
           | _ =>
             match dictGet d "turnTexts" with
             | .vList ts => ts.map extract_turn_text
             | _ => []) ∧
    perFieldRaw d =
      (if pyTruthy (dictGet d "perField") then dictGet d "perField"
       else if pyTruthy (dictGet d "fields") then dictGet d "fields"
       else .vList []) ∧
    (dictGet d "perField" = .vList [] → pyTruthy (dictGet d "fields") = true →
      perFieldRaw d = dictGet d "fields") := by
  refine ⟨?_, ?_, ?_⟩
  · simp only [extract_turns, extract_turns_from]
  · simp only [perFieldRaw, pyOr]
  · intro h1 h2
    unfold perFieldRaw pyOr
    rw [h1]
    simp [h2, show pyTruthy (PyVal.vList []) = false from rfl]

/-- C9 amended witness: on a payload with an empty `perField` and a non-empty
`fields`, resolution lands on `fields`. -/
theorem claim_C9_amended_witness :
    perFieldRaw [("perField", .vList []), ("fields", .vList [.vDict []])] =
      dictGet [("perField", .vList []), ("fields", .vList [.vDict []])] "fields" :=
  (claim_C9_amended [("perField", .vList []), ("fields", .vList [.vDict []])]).2.2 rfl rfl

set_option maxRecDepth 16384 in
/-- C7 counterexample: a 121-character all-whitespace string is longer than
120 characters, yet its preview is the empty string (length 0, not 120):
whitespace collapsing happens before the length check. -/
theorem claim_C7_counterexample :
    (String.mk (List.replicate 121 ' ')).length = 121 ∧
    redact_preview (.vStr (String.mk (List.replicate 121 ' '))) = "" := by
  constructor
  · rfl
  · rfl

/-- C7 amended: falsy input yields an empty preview; when the
whitespace-collapsed `str(text)` fits in 120 characters it is returned as is
(so an over-120-character input can produce a short preview); and when the
collapsed form exceeds 120 characters the preview is its first 117
characters followed by `...`, for a total of exactly 120. -/
theorem claim_C7_amended (t : PyVal) :
    (pyTruthy t = false → redact_preview t = "") ∧
    ((squish (pyStr t)).length ≤ 120 → pyTruthy t = true →
      redact_preview t = squish (pyStr t)) ∧
    (120 < (squish (pyStr t)).length → pyTruthy t = true →
      redact_preview t = String.mk ((squish (pyStr t)).data.take 117) ++ "..." ∧
      (redact_preview t).length = 120) := by
  refine ⟨?_, ?_, ?_⟩
  · intro hf
    unfold redact_preview
    rw [hf]
    simp
  · intro hle ht
    unfold redact_preview
    rw [ht]
    simp [hle]
  · intro hgt ht
    have heq : redact_preview t = String.mk ((squish (pyStr t)).data.take 117) ++ "..." := by
      unfold redact_preview
      rw [ht]
      simp only [Bool.true_eq_false, if_false]
      rw [if_neg (by omega)]
    refine ⟨heq, ?_⟩
    rw [heq]
    have hdata : 120 < (squish (pyStr t)).data.length := hgt
    show (((squish (pyStr t)).data.take 117) ++ "...".data).length = 120
    rw [List.length_append, List.length_take]
    have h3 : ("...".data).length = 3 := rfl
    omega

set_option maxRecDepth 16384 in
/-- C7 amended witness: 121 copies of `a` collapse to themselves, so the
preview is the 117-character head plus `...`, exactly 120 characters. -/
theorem claim_C7_amended_witness :
    redact_preview (.vStr (String.mk (List.replicate 121 'a'))) =
      String.mk ((squish (pyStr (.vStr (String.mk (List.replicate 121 'a'))))).data.take 117) ++
        "..." ∧
    (redact_preview (.vStr (String.mk (List.replicate 121 'a')))).length = 120 :=
  (claim_C7_amended (.vStr (String.mk (List.replicate 121 'a')))).2.2 (by decide) (by decide)

/-- C1 counterexample: the sanitizer does raise on some malformed inputs —
a non-mapping top level raises `AttributeError` (there is no `.get`), and a
truthy non-string snippet member on a valid turn raises `TypeError` at
`requested_snippet in turn_text` — instead of degrading to a defensive
default. -/
theorem claim_C1_counterexample :
    sanitizeExtractionTrace (.vList []) = .error .attributeError ∧
    sanitizeExtractionTrace (.vDict [("turns", .vList [.vStr "ab"]),
        ("perField", .vList [.vDict [("turnIndex", .vInt 0), ("snippet", .vInt 5)]])]) =
      .error .typeError :=
  ⟨rfl, rfl⟩

/-- A per-field claim whose resolved snippet is a string or falsy can always
be processed without raising. -/
theorem processField_total (turns : List String) (fd : List (String × PyVal))
    (hsnip : (∃ s, resolveSnippet fd = .vStr s) ∨ pyTruthy (resolveSnippet fd) = false) :
    ∃ out, processField turns (.vDict fd) = .ok out := by
  cases hv : validTurnText turns (dictGet fd "turnIndex") with
  | none =>
      cases hres : processField turns (.vDict fd) with
      | ok out => exact ⟨out, rfl⟩
      | error e =>
          exfalso
          simp [processField, pyToDict, hv] at hres
  | some txt =>
      have hsf : ∃ sf, snippetFound txt (resolveSnippet fd) = .ok sf := by
        unfold snippetFound
        by_cases ht : pyTruthy (resolveSnippet fd) = true
        · rcases hsnip with ⟨s, hstr⟩ | hfal
          · rw [if_pos ht, hstr]
            exact ⟨_, rfl⟩
          · rw [ht] at hfal
            cases hfal
        · simp only [Bool.not_eq_true] at ht
          rw [if_neg (by simp [ht])]
          exact ⟨false, rfl⟩
      obtain ⟨sf, hs⟩ := hsf
      cases hres : processField turns (.vDict fd) with
      | ok out => exact ⟨out, rfl⟩
      | error e =>
          exfalso
          simp [processField, pyToDict, hv, hs] at hres

/-- The per-field loop never raises when every claim is a mapping with a
string-or-falsy resolved snippet. -/
theorem sanitizeFields_total (turns : List String) (fs : List PyVal)
    (hwf : ∀ f ∈ fs, ∃ fd, f = PyVal.vDict fd ∧
      ((∃ s, resolveSnippet fd = .vStr s) ∨ pyTruthy (resolveSnippet fd) = false)) :
    ∃ out, sanitizeFields turns fs = .ok out := by
  induction fs with
  | nil => exact ⟨_, rfl⟩
  | cons f fs ih =>
      obtain ⟨fd, hf, hsnip⟩ := hwf f (List.mem_cons_self f fs)
      subst hf
      obtain ⟨out1, h1⟩ := processField_total turns fd hsnip
      obtain ⟨c, r, i, b⟩ := out1
      obtain ⟨out2, h2⟩ := ih fun g hg => hwf g (List.mem_cons_of_mem _ hg)
      obtain ⟨cs, rs, a2, b2⟩ := out2
      unfold sanitizeFields
      rw [h1]
      dsimp only
      rw [h2]
      exact ⟨_, rfl⟩

/-- C1 amended: `sanitizeExtractionTrace` always returns a
(sanitizedTrace, sanitizeReport) pair — missing keys, wrong-typed turns,
out-of-range indices all degrade to defensive defaults — provided the top
level is a mapping, the resolved field-claim list is a list, and every claim
is a mapping whose resolved snippet is a string or falsy. Outside that
domain it can raise (see the counterexample): a non-mapping top level does
not degrade to an empty result, and a truthy non-string snippet raises
during matching. -/
theorem claim_C1_amended (d : List (String × PyVal)) (fs : List PyVal)
    (hpf : perFieldRaw d = .vList fs)
    (hwf : ∀ f ∈ fs, ∃ fd, f = PyVal.vDict fd ∧
      ((∃ s, resolveSnippet fd = .vStr s) ∨ pyTruthy (resolveSnippet fd) = false)) :
    ∃ st rep, sanitizeExtractionTrace (.vDict d) = .ok (st, rep) := by
  obtain ⟨out, hout⟩ := sanitizeFields_total (extract_turns d) fs hwf
  obtain ⟨cs, rs, a2, b2⟩ := out
  refine ⟨⟨extract_turns d, cs⟩, ⟨a2, b2, rs⟩, ?_⟩
  show sanitizeDict d = _
  unfold sanitizeDict
  rw [hpf]
  dsimp only [pyIter]
  rw [hout]

/-- C1 amended witness: a mapping input with one empty claim sanitizes
without raising. -/
theorem claim_C1_amended_witness :
    ∃ st rep,
      sanitizeExtractionTrace (.vDict [("perField", .vList [.vDict []])]) = .ok (st, rep) :=
  claim_C1_amended [("perField", .vList [.vDict []])] [.vDict []] rfl
    (fun f hf => by
      rw [List.mem_singleton] at hf
      subst hf
      exact ⟨[], rfl, Or.inr rfl⟩)

theorem intLikeVal_vInt (n : Int) : intLikeVal (.vInt n) = n := rfl

theorem pyMin_self_of_le (a : PyVal) (L : Int) (h : intLikeVal a ≤ L) :
    pyMin a (.vInt L) = a := by
  unfold pyMin
  rw [if_pos]
  rw [intLikeVal_vInt]
  exact h

theorem pyMaxZero_struct (x : PyVal) :
    pyMax (.vInt 0) x = .vInt 0 ∨
      (pyMax (.vInt 0) x = x ∧ 0 < intLikeVal x) := by
  unfold pyMax
  rw [intLikeVal_vInt]
  split_ifs with h
  · exact Or.inl rfl
  · exact Or.inr ⟨rfl, by omega⟩

theorem pyMaxZero_absorb (x : PyVal) :
    pyMax (.vInt 0) (pyMax (.vInt 0) x) = pyMax (.vInt 0) x := by
  rcases pyMaxZero_struct x with h | ⟨h, hpos⟩
  · rw [h]
    unfold pyMax
    simp
  · rw [h]
    unfold pyMax
    rw [intLikeVal_vInt, if_neg (by omega)]

theorem pyMax_absorb_left (a b : PyVal) : pyMax a (pyMax a b) = pyMax a b := by
  by_cases h : intLikeVal a ≥ intLikeVal b
  · have hb : pyMax a b = a := by
      unfold pyMax
      rw [if_pos h]
    rw [hb]
    unfold pyMax
    rw [if_pos le_rfl]
  · have hb : pyMax a b = b := by
      unfold pyMax
      rw [if_neg h]
    rw [hb]
    unfold pyMax
    rw [if_neg h]

/-- Re-clamping already-clamped offsets is the identity and reports no
change: the output of `clampOffsets` is a fixed point. -/
theorem clampOffsets_idem (txt : String) (sc ec fs fe : PyVal) (ch : Bool)
    (h : clampOffsets txt sc ec = some (fs, fe, ch)) :
    clampOffsets txt fs fe = some (fs, fe, false) := by
  obtain ⟨hi1, hi2, hb0, hbse, hbeL⟩ := clampOffsets_bounds txt sc ec fs fe ch h
  have hL : (0 : Int) ≤ (txt.length : Int) := Int.ofNat_nonneg _
  have hfsle : intLikeVal fs ≤ (txt.length : Int) := le_trans hbse hbeL
  have hmin1 : pyMin fs (.vInt (txt.length : Int)) = fs := pyMin_self_of_le _ _ hfsle
  have hmin2 : pyMin fe (.vInt (txt.length : Int)) = fe := pyMin_self_of_le _ _ hbeL
  -- structural shape of fs and fe from the first clamp
  have hif : (isIntLike sc || isIntLike ec) = true := by
    have hx := clampOffsets_isSome_iff txt sc ec
    rw [h] at hx
    simpa using hx.symm
  unfold clampOffsets at h
  rw [if_pos hif] at h
  simp only [Option.some_inj, Prod.mk.injEq] at h
  obtain ⟨hfs, hfe, hch⟩ := h
  have hfs_shape : pyMax (.vInt 0) fs = fs := by
    rw [← hfs]
    exact pyMaxZero_absorb _
  have hfe_shape : pyMax fs fe = fe := by
    rw [← hfe, ← hfs]
    exact pyMax_absorb_left _ _
  unfold clampOffsets
  rw [if_pos (by rw [hi1]; simp)]
  simp only [hi1, hi2, eq_self_iff_true, if_true, hmin1, hfs_shape, hmin2, hfe_shape]
  simp

theorem dictGet_offsets_other (fd : List (String × PyVal)) (fs fe : PyVal) (k : String)
    (h1 : k ≠ "startChar") (h2 : k ≠ "endChar") :
    dictGet (setKey (setKey fd "startChar" fs) "endChar" fe) k = dictGet fd k := by
  rw [dictGet_setKey_of_ne _ _ _ _ h2, dictGet_setKey_of_ne _ _ _ _ h1]

theorem resolveSnippet_offsets (fd : List (String × PyVal)) (fs fe : PyVal) :
    resolveSnippet (setKey (setKey fd "startChar" fs) "endChar" fe) = resolveSnippet fd := by
  unfold resolveSnippet
  rw [dictGet_offsets_other _ _ _ _ (by decide) (by decide),
    dictGet_offsets_other _ _ _ _ (by decide) (by decide),
    dictGet_offsets_other _ _ _ _ (by decide) (by decide)]

/-- Rewriting a present key with its current value is the identity. -/
theorem setKey_get_self (d : List (String × PyVal)) (k : String) (v : PyVal)
    (hk : hasKey d k = true) (hv : dictGet d k = v) : setKey d k v = d := by
  rw [← hv]
  exact setKey_eq_self_of_get d k hk

/-- Feeding a claim copy back through the per-field step returns the very
same copy, with the same invalid-evidence flag and no offset fix. -/
theorem processField_refeed (turns : List String) (f : PyVal)
    (c : List (String × PyVal)) (r : FieldReport) (i b : Bool)
    (h : processField turns f = .ok (c, r, i, b)) :
    ∃ r2, processField turns (.vDict c) = .ok (c, r2, i, false) := by
  cases f with
  | vDict fd =>
      cases hv : validTurnText turns (dictGet fd "turnIndex") with
      | none =>
          simp [processField, pyToDict, hv] at h
          obtain ⟨hc, hr, hi, hb⟩ := h
          subst hc
          subst hi
          refine ⟨r, ?_⟩
          rw [← hr]
          simp [processField, pyToDict, hv]
      | some txt =>
          cases hs : snippetFound txt (resolveSnippet fd) with
          | error e =>
              exfalso
              simp [processField, pyToDict, hv, hs] at h
          | ok sf =>
              simp [processField, pyToDict, hv, hs] at h
              obtain ⟨hc, hr, hi, hb⟩ := h
              subst hi
              cases hcl : clampOffsets txt (dictGet fd "startChar") (dictGet fd "endChar") with
              | none =>
                  rw [hcl] at hc hb
                  simp only at hc hb
                  subst hc
                  subst hb
                  refine ⟨r, ?_⟩
                  rw [← hr]
                  simp [processField, pyToDict, hv, hcl, hs]
              | some p =>
                  obtain ⟨fs, fe, ch⟩ := p
                  rw [hcl] at hc hb
                  simp only at hc hb
                  subst hc
                  subst hb
                  have hti : dictGet (setKey (setKey fd "startChar" fs) "endChar" fe) "turnIndex" =
                      dictGet fd "turnIndex" :=
                    dictGet_offsets_other _ _ _ _ (by decide) (by decide)
                  have hvalk : dictGet (setKey (setKey fd "startChar" fs) "endChar" fe) "value" =
                      dictGet fd "value" :=
                    dictGet_offsets_other _ _ _ _ (by decide) (by decide)
                  have hsnip := resolveSnippet_offsets fd fs fe
                  have hS : dictGet (setKey (setKey fd "startChar" fs) "endChar" fe) "startChar" =
                      fs := by
                    rw [dictGet_setKey_of_ne _ _ _ _ (by decide), dictGet_setKey_self]
                  have hE : dictGet (setKey (setKey fd "startChar" fs) "endChar" fe) "endChar" =
                      fe := dictGet_setKey_self _ _ _
                  have hcl2 : clampOffsets txt fs fe = some (fs, fe, false) :=
                    clampOffsets_idem txt _ _ _ _ _ hcl
                  have hkS : hasKey (setKey (setKey fd "startChar" fs) "endChar" fe)
                      "startChar" = true := by
                    rw [hasKey_setKey_of_ne _ _ _ _ (by decide)]
                    exact hasKey_setKey_self _ _ _
                  have hkE : hasKey (setKey (setKey fd "startChar" fs) "endChar" fe)
                      "endChar" = true := hasKey_setKey_self _ _ _
                  have habsorb :
                      setKey (setKey (setKey (setKey fd "startChar" fs) "endChar" fe)
                        "startChar" fs) "endChar" fe =
                      setKey (setKey fd "startChar" fs) "endChar" fe := by
                    rw [setKey_get_self _ _ _ hkS hS, setKey_get_self _ _ _ hkE hE]
                  cases hres : processField turns
                      (.vDict (setKey (setKey fd "startChar" fs) "endChar" fe)) with
                  | error e =>
                      exfalso
                      simp only [processField, pyToDict, hti, hv, hsnip, hs] at hres
                      exact Except.noConfusion hres
                  | ok out =>
                      obtain ⟨c2, r2, i2, b2⟩ := out
                      refine ⟨r2, ?_⟩
                      simp only [processField, pyToDict, hti, hv, hS, hE, hcl2, hsnip, hvalk,
                        hs] at hres
                      simp only [Except.ok.injEq, Prod.mk.injEq] at hres
                      obtain ⟨h1, h2, h3, h4⟩ := hres
                      rw [habsorb] at h1
                      subst h1
                      subst h3
                      subst h4
                      rfl
  | vStr s => simp [processField, pyToDict] at h
  | vInt n => simp [processField, pyToDict] at h
  | vBool bb => simp [processField, pyToDict] at h
  | vNone => simp [processField, pyToDict] at h
  | vList l => simp [processField, pyToDict] at h

/-- Re-running the per-field loop on the claim copies returns the same claim
copies. -/
theorem sanitizeFields_refeed (turns : List String) (fs : List PyVal)
    (cs : List (List (String × PyVal))) (rs : List FieldReport) (inv fix : Nat)
    (h : sanitizeFields turns fs = .ok (cs, rs, inv, fix)) :
    ∃ rs2 inv2, sanitizeFields turns (cs.map PyVal.vDict) = .ok (cs, rs2, inv2, 0) := by
  induction fs generalizing cs rs inv fix with
  | nil =>
      simp only [sanitizeFields, Except.ok.injEq, Prod.mk.injEq] at h
      obtain ⟨hc, hr, hi, hf⟩ := h
      subst hc
      exact ⟨[], 0, rfl⟩
  | cons f fs ih =>
      unfold sanitizeFields at h
      cases hpf : processField turns f with
      | error e => rw [hpf] at h; cases h
      | ok q =>
          obtain ⟨c, r, i, b⟩ := q
          rw [hpf] at h
          cases hrec : sanitizeFields turns fs with
          | error e => rw [hrec] at h; cases h
          | ok q2 =>
              obtain ⟨cs', rs', invs, fixs⟩ := q2
              rw [hrec] at h
              simp only [Except.ok.injEq, Prod.mk.injEq] at h
              obtain ⟨hc, hr, hi, hf⟩ := h
              subst hc
              obtain ⟨rs2, inv2, h2⟩ := ih cs' rs' invs fixs hrec
              obtain ⟨r2, h1⟩ := processField_refeed turns f c r i b hpf
              refine ⟨r2 :: rs2, (if i then 1 else 0) + inv2, ?_⟩
              simp only [List.map_cons]
              unfold sanitizeFields
              rw [h1]
              dsimp only
              rw [h2]
              simp

/-- Turns re-emitted as `{"text": t}` objects extract back to themselves. -/
theorem extract_turns_toPyVal (ts : List String) :
    (ts.map fun t => PyVal.vDict [("text", PyVal.vStr t)]).map extract_turn_text = ts := by
  induction ts with
  | nil => rfl
  | cons t ts ih => simp [extract_turn_text, extract_turn_text.firstStrKey, dictGet, ih]

/-- The field list of a re-fed sanitized trace resolves to the claim copies:
with a non-empty copy list `perField` is truthy and wins; with an empty one
the `or`-chain falls through to the `[]` default, which iterates the same. -/
theorem perFieldRaw_refeed (ts : List String) (cs : List (List (String × PyVal))) :
    pyIter (perFieldRaw
      [("turns", PyVal.vList (ts.map fun t => PyVal.vDict [("text", PyVal.vStr t)])),
       ("perField", PyVal.vList (cs.map PyVal.vDict))]) = .ok (cs.map PyVal.vDict) := by
  cases cs with
  | nil => rfl
  | cons c cs' => rfl

/-- Turn extraction on a re-fed sanitized trace recovers the same turns. -/
theorem extract_turns_refeed (ts : List String) (pf : PyVal) :
    extract_turns
      [("turns", PyVal.vList (ts.map fun t => PyVal.vDict [("text", PyVal.vStr t)])),
       ("perField", pf)] = ts := by
  show (ts.map fun t => PyVal.vDict [("text", PyVal.vStr t)]).map extract_turn_text = ts
  exact extract_turns_toPyVal ts

/-- C8: sanitization is idempotent on the sanitized trace: feeding the
resulting `sanitizedTrace` back in yields the very same `sanitizedTrace`
(so in particular every claim copy's `startChar`/`endChar` is unchanged) and
a zero `fixedOffsetCount`. -/
theorem claim_C8 (d : List (String × PyVal)) (st : SanitizedTrace) (rep : SanitizeReport)
    (h : sanitizeExtractionTrace (.vDict d) = .ok (st, rep)) :
    ∃ rep2, sanitizeExtractionTrace st.toPyVal = .ok (st, rep2) ∧
      rep2.fixedOffsetCount = 0 := by
  replace h : sanitizeDict d = .ok (st, rep) := h
  unfold sanitizeDict at h
  cases hit : pyIter (perFieldRaw d) with
  | error e => rw [hit] at h; cases h
  | ok fields =>
      rw [hit] at h
      dsimp only at h
      cases hsf : sanitizeFields (extract_turns d) fields with
      | error e => rw [hsf] at h; cases h
      | ok q =>
          obtain ⟨cs, rs, inv, fix⟩ := q
          rw [hsf] at h
          dsimp only at h
          simp only [Except.ok.injEq, Prod.mk.injEq] at h
          obtain ⟨hst, hrep⟩ := h
          subst hst
          subst hrep
          obtain ⟨rs2, inv2, h2⟩ := sanitizeFields_refeed _ _ _ _ _ _ hsf
          refine ⟨⟨inv2, 0, rs2⟩, ?_, rfl⟩
          show sanitizeDict
            [("turns", PyVal.vList ((extract_turns d).map
                fun t => PyVal.vDict [("text", PyVal.vStr t)])),
             ("perField", PyVal.vList (cs.map PyVal.vDict))] = _
          unfold sanitizeDict
          rw [perFieldRaw_refeed]
          dsimp only
          rw [extract_turns_refeed]
          rw [h2]

/-- C8 witness: re-sanitizing the sanitized trace of an offset-repair input
returns the identical sanitized trace and fixes nothing further. -/
theorem claim_C8_witness :
    ∃ rep2,
      sanitizeExtractionTrace
        (SanitizedTrace.mk ["abcd"]
          [[("turnIndex", PyVal.vInt 0), ("startChar", PyVal.vInt 0),
            ("endChar", PyVal.vInt 4)]]).toPyVal =
        .ok (SanitizedTrace.mk ["abcd"]
          [[("turnIndex", PyVal.vInt 0), ("startChar", PyVal.vInt 0),
            ("endChar", PyVal.vInt 4)]], rep2) ∧
      rep2.fixedOffsetCount = 0 :=
  claim_C8
    [("turns", .vList [.vStr "abcd"]),
     ("perField", .vList [.vDict [("turnIndex", .vInt 0), ("startChar", .vInt (-1)),
       ("endChar", .vInt 9)]])]
    (SanitizedTrace.mk ["abcd"]
      [[("turnIndex", PyVal.vInt 0), ("startChar", PyVal.vInt 0), ("endChar", PyVal.vInt 4)]])
    (SanitizeReport.mk 0 1
      [mkReport [("turnIndex", PyVal.vInt 0), ("startChar", PyVal.vInt (-1)),
        ("endChar", PyVal.vInt 9)] (PyVal.vInt 0) "offset_fixed" "none" (some "abcd")])
    rfl

end PostcallTrace
